import Mathlib

/-!
Verification of the real-time audio streaming and session-management core of
the Lumi voice-assistant front end (`src/App.tsx`, `src/types.ts`).

The embedding is shallow: every definition below is translated from the
TypeScript source.  Byte strings are `List Nat` (each element `< 256`, the
char codes of the JavaScript binary string); audio samples are rationals
(JavaScript float arithmetic in this pipeline only multiplies/divides by the
exact power of two 32768, which is exact in binary floating point, so ℚ is a
faithful carrier); the `Int16Array` element store applies the ECMAScript
ToInt16 conversion (truncate toward zero, then wrap modulo 2^16).
-/

/-- Truncation toward zero, the integer conversion ECMAScript applies before
wrapping when a number is stored into an `Int16Array` element. -/
def ratTrunc (q : ℚ) : Int := if 0 ≤ q then ⌊q⌋ else ⌈q⌉

/-- ECMAScript ToInt16: wrap an integer into `[-32768, 32768)` modulo 2^16.
This is what `int16[i] = inputData[i] * 32768` does in `onaudioprocess`
(`src/App.tsx`), after truncating the product toward zero. -/
def toInt16 (x : Int) : Int :=
  if 32768 ≤ x % 65536 then x % 65536 - 65536 else x % 65536

/-- The capture-side sample conversion of `onaudioprocess`:
`int16[i] = inputData[i] * 32768` (scale, truncate toward zero, wrap). -/
def sampleToInt16 (x : ℚ) : Int := toInt16 (ratTrunc (x * 32768))

/-- Two's-complement 16-bit code of a signed value, as laid out in the
`Int16Array` backing buffer. -/
def int16ToCode (v : Int) : Nat := (v % 65536).toNat

/-- Signed value of a 16-bit two's-complement code, as read back by
`new Int16Array(data.buffer)` in `decodeAudioData`. -/
def int16OfCode (c : Nat) : Int := if 32768 ≤ c then (c : Int) - 65536 else (c : Int)

/-- Little-endian byte pair of a 16-bit code: `new Uint8Array(int16.buffer)`. -/
def int16CodeBytesLE (c : Nat) : List Nat := [c % 256, c / 256]

/-- Reassemble little-endian byte pairs into signed 16-bit values:
`const dataInt16 = new Int16Array(data.buffer)` in `decodeAudioData`. -/
def bytesToInt16s : List Nat → List Int
  | lo :: hi :: rest => int16OfCode (lo + hi * 256) :: bytesToInt16s rest
  | _ => []

/-- ASCII code of the base64 digit for a 6-bit group (the alphabet `btoa`
uses: `A..Z`, `a..z`, `0..9`, `+`, `/`). -/
def b64Char (n : Nat) : Nat :=
  if n < 26 then 65 + n
  else if n < 52 then 97 + (n - 26)
  else if n < 62 then 48 + (n - 52)
  else if n = 62 then 43
  else 47

/-- 6-bit group denoted by a base64 digit's ASCII code (inverse of `b64Char`
on the alphabet). -/
def b64Index (c : Nat) : Nat :=
  if 65 ≤ c ∧ c ≤ 90 then c - 65
  else if 97 ≤ c ∧ c ≤ 122 then c - 97 + 26
  else if 48 ≤ c ∧ c ≤ 57 then c - 48 + 52
  else if c = 43 then 62
  else 63

/-- The source's `encode` (`src/App.tsx` lines 19–26): build the binary
string from the bytes and apply `btoa`.  Bytes in, base64 char codes out;
61 is the ASCII code of the `=` padding character. -/
def encode : List Nat → List Nat
  | a :: b :: c :: rest =>
      b64Char (a / 4) :: b64Char (a % 4 * 16 + b / 16) ::
        b64Char (b % 16 * 4 + c / 64) :: b64Char (c % 64) :: encode rest
  | [a, b] => [b64Char (a / 4), b64Char (a % 4 * 16 + b / 16), b64Char (b % 16 * 4), 61]
  | [a] => [b64Char (a / 4), b64Char (a % 4 * 16), 61, 61]
  | [] => []

/-- The source's `decode` (`src/App.tsx` lines 10–17): `atob` then read the
char codes back into bytes. -/
def decode : List Nat → List Nat
  | c1 :: c2 :: c3 :: c4 :: rest =>
      if c3 = 61 then [b64Index c1 * 4 + b64Index c2 / 16]
      else if c4 = 61 then
        [b64Index c1 * 4 + b64Index c2 / 16, b64Index c2 % 16 * 16 + b64Index c3 / 4]
      else
        (b64Index c1 * 4 + b64Index c2 / 16) ::
          (b64Index c2 % 16 * 16 + b64Index c3 / 4) ::
          (b64Index c3 % 4 * 64 + b64Index c4) :: decode rest
  | _ => []

/-- Capture side of `onaudioprocess`: convert each float sample to int16 and
lay the values out little-endian (`new Uint8Array(int16.buffer)`). -/
def frameToBytes (xs : List ℚ) : List Nat :=
  (xs.map fun x => int16ToCode (sampleToInt16 x)).flatMap int16CodeBytesLE

/-- The full capture encoder: the `data` field of the `pcmBlob` built in
`onaudioprocess` (`src/App.tsx` lines 215–225). -/
def onaudioprocessEncode (xs : List ℚ) : List Nat := encode (frameToBytes xs)

/-- `decodeAudioData` (`src/App.tsx` lines 29–46) for one channel: read the
bytes as little-endian int16 and divide by 32768.0. -/
def decodeAudioData (bytes : List Nat) : List ℚ :=
  (bytesToInt16s bytes).map fun v : Int => (v : ℚ) / 32768

/-! ### Base64 round trip -/

theorem b64Index_b64Char (n : Nat) (h : n < 64) : b64Index (b64Char n) = n := by
  revert h; revert n; decide

theorem b64Char_ne_61 (n : Nat) (h : n < 64) : b64Char n ≠ 61 := by
  revert h; revert n; decide

theorem b64Char_lt (a : Nat) (h : a < 256) : a / 4 < 64 ∧ a % 4 * 16 < 64 := by omega

theorem decode_encode (bs : List Nat) (h : ∀ b ∈ bs, b < 256) :
    decode (encode bs) = bs := by
  induction bs using encode.induct with
  | case1 a b c rest ih =>
    have ha : a < 256 := h a (by simp)
    have hb : b < 256 := h b (by simp)
    have hc : c < 256 := h c (by simp)
    rw [encode, decode]
    rw [if_neg (b64Char_ne_61 _ (by omega)), if_neg (b64Char_ne_61 _ (by omega))]
    rw [b64Index_b64Char _ (by omega), b64Index_b64Char _ (by omega),
      b64Index_b64Char _ (by omega), b64Index_b64Char _ (by omega)]
    rw [ih (fun x hx => h x (by simp [hx]))]
    simp only [List.cons.injEq, and_true]
    refine ⟨by omega, by omega, by omega⟩
  | case2 a b =>
    have ha : a < 256 := h a (by simp)
    have hb : b < 256 := h b (by simp)
    rw [encode, decode]
    rw [if_neg (b64Char_ne_61 _ (by omega)), if_pos rfl]
    rw [b64Index_b64Char _ (by omega), b64Index_b64Char _ (by omega),
      b64Index_b64Char _ (by omega)]
    simp only [List.cons.injEq, and_true]
    refine ⟨by omega, by omega⟩
  | case3 a =>
    have ha : a < 256 := h a (by simp)
    rw [encode, decode, if_pos rfl]
    rw [b64Index_b64Char _ (by omega), b64Index_b64Char _ (by omega)]
    simp only [List.cons.injEq, and_true]
    omega
  | case4 => rfl

/-! ### PCM16 conversion lemmas -/

theorem abs_ratTrunc_sub_lt (q : ℚ) : |((ratTrunc q : Int) : ℚ) - q| < 1 := by
  unfold ratTrunc
  split
  · rw [abs_sub_lt_iff]
    exact ⟨by linarith [Int.floor_le q], by linarith [Int.sub_one_lt_floor q]⟩
  · rw [abs_sub_lt_iff]
    exact ⟨by linarith [Int.ceil_lt_add_one q], by linarith [Int.le_ceil q]⟩

theorem ratTrunc_range (q : ℚ) (h1 : -32768 ≤ q) (h2 : q < 32768) :
    -32768 ≤ ratTrunc q ∧ ratTrunc q ≤ 32767 := by
  unfold ratTrunc
  split
  next h =>
    have h3 : (0 : Int) ≤ ⌊q⌋ := Int.floor_nonneg.mpr h
    have h4 : ⌊q⌋ < 32768 := by
      have h5 : (⌊q⌋ : ℚ) < 32768 := lt_of_le_of_lt (Int.floor_le q) h2
      exact_mod_cast h5
    omega
  next h =>
    push_neg at h
    have h3 : ⌈q⌉ ≤ 0 := Int.ceil_le.mpr (by exact_mod_cast h.le)
    have h4 : (-32768 : Int) ≤ ⌈q⌉ := by
      have h5 : (-32768 : ℚ) ≤ (⌈q⌉ : ℚ) := le_trans h1 (Int.le_ceil q)
      exact_mod_cast h5
    omega

theorem toInt16_eq_self (v : Int) (h1 : -32768 ≤ v) (h2 : v ≤ 32767) : toInt16 v = v := by
  unfold toInt16
  split <;> omega

theorem int16ToCode_lt (v : Int) : int16ToCode v < 65536 := by
  unfold int16ToCode
  omega

theorem int16OfCode_int16ToCode (v : Int) (h1 : -32768 ≤ v) (h2 : v ≤ 32767) :
    int16OfCode (int16ToCode v) = v := by
  unfold int16OfCode int16ToCode
  split <;> omega

theorem bytesToInt16s_flatMap (cs : List Nat) :
    bytesToInt16s (cs.flatMap int16CodeBytesLE) = cs.map int16OfCode := by
  induction cs with
  | nil => rfl
  | cons c rest ih =>
    simp only [List.flatMap_cons, int16CodeBytesLE, List.cons_append, List.nil_append]
    rw [bytesToInt16s, ih, List.map_cons]
    have hc : c % 256 + c / 256 * 256 = c := by omega
    rw [hc]

theorem sampleToInt16_eq_trunc (x : ℚ) (h1 : -1 ≤ x) (h2 : x < 1) :
    sampleToInt16 x = ratTrunc (x * 32768) := by
  have hr := ratTrunc_range (x * 32768) (by linarith) (by linarith)
  unfold sampleToInt16
  exact toInt16_eq_self _ hr.1 hr.2

theorem roundTrip_eq_map (xs : List ℚ) (h : ∀ x ∈ xs, -1 ≤ x ∧ x < 1) :
    decodeAudioData (decode (onaudioprocessEncode xs)) =
      xs.map fun x => ((ratTrunc (x * 32768) : Int) : ℚ) / 32768 := by
  unfold onaudioprocessEncode decodeAudioData
  rw [decode_encode]
  · unfold frameToBytes
    rw [bytesToInt16s_flatMap, List.map_map, List.map_map]
    apply List.map_congr_left
    intro x hx
    have h1 := (h x hx).1
    have h2 := (h x hx).2
    have hr := ratTrunc_range (x * 32768) (by linarith) (by linarith)
    simp only [Function.comp_apply]
    rw [sampleToInt16_eq_trunc x h1 h2, int16OfCode_int16ToCode _ hr.1 hr.2]
  · intro b hb
    unfold frameToBytes at hb
    simp only [List.mem_flatMap, List.mem_map] at hb
    obtain ⟨c, ⟨x, hx, rfl⟩, hbc⟩ := hb
    have hlt := int16ToCode_lt (sampleToInt16 x)
    unfold int16CodeBytesLE at hbc
    simp only [List.mem_cons, List.not_mem_nil, or_false] at hbc
    rcases hbc with rfl | rfl <;> omega

theorem quantization_error (x : ℚ) :
    |((ratTrunc (x * 32768) : Int) : ℚ) / 32768 - x| ≤ 1 / 32768 := by
  have h := abs_ratTrunc_sub_lt (x * 32768)
  rw [abs_sub_lt_iff] at h
  rw [abs_le]
  constructor <;> [linarith [h.2]; linarith [h.1]]

/-! ### Claims C2 and C3: capture encoding and round trip -/

theorem sampleToInt16_one : sampleToInt16 1 = -32768 := by
  have h1 : ratTrunc (1 * 32768) = 32768 := by
    rw [ratTrunc, if_pos (by norm_num)]
    norm_num
  rw [sampleToInt16, h1]
  decide

/-- C2 counterexample: at the single-sample frame `[1]` (the boundary value
+1.0) the encode/decode round trip yields `[-1]`, which is not within the
16-bit quantization error 1/32768 of the original sample `1`. -/
theorem C2_counterexample :
    decodeAudioData (decode (onaudioprocessEncode [1])) = [-1] ∧
      ¬ |(-1 : ℚ) - 1| ≤ 1 / 32768 := by
  constructor
  · show decodeAudioData (decode (encode (frameToBytes [1]))) = [-1]
    have hf : frameToBytes [1] = [0, 128] := by
      unfold frameToBytes
      rw [List.map_cons, List.map_nil, sampleToInt16_one]
      decide
    rw [hf, decode_encode _ (by decide)]
    unfold decodeAudioData
    have hb : bytesToInt16s [0, 128] = [-32768] := by decide
    rw [hb, List.map_cons, List.map_nil]
    norm_num
  · norm_num

/-- C2 (amended): for every captured frame whose samples lie in `[-1, 1)`,
converting to 16-bit PCM, packing little-endian, base64-encoding with
`encode`, decoding with `decode` and converting back to floats via
`decodeAudioData` reproduces each sample within the quantization step
1/32768.  The boundary sample +1.0 is excluded: the `Int16Array` store wraps
it to -32768, so the round trip returns -1 for it. -/
theorem C2_roundtrip (xs : List ℚ) (h : ∀ x ∈ xs, -1 ≤ x ∧ x < 1) :
    List.Forall₂ (fun y x => |y - x| ≤ 1 / 32768)
      (decodeAudioData (decode (onaudioprocessEncode xs))) xs := by
  rw [roundTrip_eq_map xs h, List.forall₂_map_left_iff, List.forall₂_same]
  intro x _
  exact quantization_error x

/-- Witness for `C2_roundtrip` at the concrete frame `[1/2, -1/4, 0]`. -/
theorem C2_roundtrip_witness :
    (∀ x ∈ ([1/2, -1/4, 0] : List ℚ), -1 ≤ x ∧ x < 1) ∧
      List.Forall₂ (fun y x => |y - x| ≤ 1 / 32768)
        (decodeAudioData (decode (onaudioprocessEncode [1/2, -1/4, 0])))
        [1/2, -1/4, 0] := by
  have h : ∀ x ∈ ([1/2, -1/4, 0] : List ℚ), -1 ≤ x ∧ x < 1 := by
    intro x hx
    simp only [List.mem_cons, List.not_mem_nil, or_false] at hx
    rcases hx with rfl | rfl | rfl <;> norm_num
  exact ⟨h, C2_roundtrip [1/2, -1/4, 0] h⟩

/-- C3 counterexample: the capture encoder maps the boundary sample +1.0 to
-32768 (two's-complement wrap of 32768), not to the maximum positive int16
value 32767 that saturation would give. -/
theorem C3_counterexample : sampleToInt16 1 = -32768 ∧ sampleToInt16 1 ≠ 32767 := by
  refine ⟨sampleToInt16_one, ?_⟩
  rw [sampleToInt16_one]
  decide

/-- C3 (amended): for samples `x ∈ [-1, 1)` the capture encoder produces
`x * 32768` truncated toward zero, which lies in `[-32768, 32767]` with no
saturation needed; the boundary value +1.0 wraps modulo 2^16 to -32768
instead of saturating to 32767. -/
theorem C3_truncation_wrap (x : ℚ) (h1 : -1 ≤ x) (h2 : x < 1) :
    (sampleToInt16 x = ratTrunc (x * 32768) ∧
      -32768 ≤ sampleToInt16 x ∧ sampleToInt16 x ≤ 32767) ∧
      sampleToInt16 1 = -32768 := by
  have hr := ratTrunc_range (x * 32768) (by linarith) (by linarith)
  have he := sampleToInt16_eq_trunc x h1 h2
  refine ⟨⟨he, ?_, ?_⟩, sampleToInt16_one⟩
  · rw [he]; exact hr.1
  · rw [he]; exact hr.2

/-- Witness for `C3_truncation_wrap` at `x = 1/2`. -/
theorem C3_truncation_wrap_witness :
    ((-1 : ℚ) ≤ 1 / 2 ∧ (1 / 2 : ℚ) < 1) ∧
      ((sampleToInt16 (1 / 2) = ratTrunc (1 / 2 * 32768) ∧
        -32768 ≤ sampleToInt16 (1 / 2) ∧ sampleToInt16 (1 / 2) ≤ 32767) ∧
        sampleToInt16 1 = -32768) :=
  ⟨⟨by norm_num, by norm_num⟩, C3_truncation_wrap (1 / 2) (by norm_num) (by norm_num)⟩

/-! ### Session state model (`src/App.tsx`, `src/types.ts`) -/

/-- Message role (`src/types.ts`). -/
inductive Role
  | user
  | assistant
  deriving DecidableEq

/-- `Message` from `src/types.ts`.  The random `id` string and the `Date`
timestamp are generated by the environment and carry no program logic; the
model keeps the fields the handlers compute. -/
structure Message where
  role : Role
  text : String
  deriving DecidableEq

/-- `ConnectionStatus` from `src/types.ts`. -/
inductive ConnectionStatus
  | DISCONNECTED
  | CONNECTING
  | CONNECTED
  | ERROR
  deriving DecidableEq

/-- The live-session handle stored in `sessionRef`.  Its operations
(`sendRealtimeInput`, `close`) belong to the external transport; whether a
given call throws is supplied as a parameter where it matters. -/
structure Session where
  id : Nat
  deriving DecidableEq

/-- A decoded inbound audio chunk as the `onmessage` handler sees it after
`decodeAudioData`: its playback duration, whether decode succeeded (the
`try`/`catch` around decode-and-start), and the identity of the
`AudioBufferSourceNode` created for it. -/
structure AudioChunk where
  duration : ℚ
  decodeOk : Bool
  sourceId : Nat
  deriving DecidableEq

/-- The mutable state of the `App` component: React state plus the refs the
handlers in `src/App.tsx` read and write. -/
structure AppState where
  messages : List Message
  status : ConnectionStatus
  isSpeaking : Bool
  isListening : Bool
  inputText : String
  nextStartTime : ℚ
  activeSources : List Nat
  session : Option Session
  scriptProcessor : Bool
  currentInputTranscription : String
  currentOutputTranscription : String
  sentTexts : List String
  deriving DecidableEq

/-- `stopAllAudio` (`src/App.tsx` lines 72–79): stop every active source
(stop errors swallowed), clear the active set, set the watermark
`nextStartTimeRef.current` to 0, and clear the speaking flag. -/
def stopAllAudio (s : AppState) : AppState :=
  { s with activeSources := [], nextStartTime := 0, isSpeaking := false }

/-- `handleStopSession` (`src/App.tsx` lines 247–259): close and drop the
session (close errors swallowed), disconnect and drop the script processor,
stop all audio, clear listening, set `DISCONNECTED`. -/
def handleStopSession (s : AppState) : AppState :=
  let s1 := { s with session := none, scriptProcessor := false }
  let s2 := stopAllAudio s1
  { s2 with isListening := false, status := ConnectionStatus.DISCONNECTED }

/-- `handleSendText` (`src/App.tsx` lines 81–98).  `sendOk` is whether the
transport's `sendRealtimeInput` call returns normally; when it throws, the
`catch` logs and no state is changed. -/
def handleSendText (s : AppState) (sendOk : Bool) : AppState :=
  if s.inputText.trim = "" ∨ s.session = none ∨ s.status ≠ ConnectionStatus.CONNECTED then s
  else if sendOk then
    { s with sentTexts := s.sentTexts ++ [s.inputText.trim],
             messages := s.messages ++ [⟨Role.user, s.inputText.trim⟩],
             inputText := "" }
  else s

/-- An inbound `LiveServerMessage` as far as `onmessage` inspects it. -/
structure LiveServerMessage where
  outputTranscription : Option String
  inputTranscription : Option String
  turnComplete : Bool
  audio : Option AudioChunk
  interrupted : Bool

/-- First block of `onmessage`: accumulate an output transcription fragment,
else an input one (`else if`, so a message carrying both only feeds the
output accumulator). -/
def applyTranscription (s : AppState) (m : LiveServerMessage) : AppState :=
  match m.outputTranscription with
  | some f => { s with currentOutputTranscription := s.currentOutputTranscription ++ f }
  | none =>
    match m.inputTranscription with
    | some f => { s with currentInputTranscription := s.currentInputTranscription ++ f }
    | none => s

/-- Second block of `onmessage`: on `turnComplete`, append one assistant
message if the output accumulator is non-empty (string truthiness), then
clear both accumulators. -/
def applyTurnComplete (s : AppState) (m : LiveServerMessage) : AppState :=
  if m.turnComplete then
    let s1 :=
      if s.currentOutputTranscription ≠ "" then
        { s with messages :=
            s.messages ++ [⟨Role.assistant, s.currentOutputTranscription⟩] }
      else s
    { s1 with currentInputTranscription := "", currentOutputTranscription := "" }
  else s

/-- The audio branch of `onmessage`: set speaking, clamp the watermark to
`max(nextStartTime, ctx.currentTime)`, and on decode success start a source
exactly at the watermark and advance the watermark by the buffer duration
(on decode failure the error is logged and the watermark is left clamped).
Returns the scheduled start time when a source was started. -/
def scheduleAudio (s : AppState) (t : ℚ) (c : AudioChunk) : AppState × Option ℚ :=
  let s1 := { s with isSpeaking := true, nextStartTime := max s.nextStartTime t }
  if c.decodeOk then
    ({ s1 with nextStartTime := s1.nextStartTime + c.duration,
               activeSources := c.sourceId :: s1.activeSources }, some s1.nextStartTime)
  else (s1, none)

/-- Third block of `onmessage`: play inbound audio if present.  `t` is the
output clock's `ctx.currentTime` when the chunk is handled. -/
def applyAudio (s : AppState) (m : LiveServerMessage) (t : ℚ) : AppState :=
  match m.audio with
  | some c => (scheduleAudio s t c).1
  | none => s

/-- Fourth block of `onmessage`: `if (message.serverContent?.interrupted)
stopAllAudio()`. -/
def applyInterrupted (s : AppState) (m : LiveServerMessage) : AppState :=
  if m.interrupted then stopAllAudio s else s

/-- The `onmessage` callback (`src/App.tsx` lines 138–181), as the sequence
of its four blocks. -/
def onmessage (s : AppState) (m : LiveServerMessage) (t : ℚ) : AppState :=
  applyInterrupted (applyAudio (applyTurnComplete (applyTranscription s m) m) m t) m

/-- Process a sequence of inbound events, each paired with the output
clock's current time when it is handled. -/
def runMessages (s : AppState) : List (LiveServerMessage × ℚ) → AppState
  | [] => s
  | (m, t) :: rest => runMessages (onmessage s m t) rest

/-- `onended` callback of a playback source: remove it from the active set;
when the set becomes empty the system is no longer speaking. -/
def onended (s : AppState) (sid : Nat) : AppState :=
  let s1 := { s with activeSources := s.activeSources.erase sid }
  if s1.activeSources.isEmpty then { s1 with isSpeaking := false } else s1

/-! ### Playback scheduling: monotonicity and interruption -/

/-- Record of one successfully scheduled playback unit: the clock time when
it was handled, the start time passed to `source.start`, and its duration. -/
structure SchedEntry where
  clockTime : ℚ
  startTime : ℚ
  duration : ℚ
  deriving DecidableEq

/-- Run a sequence of inbound audio chunks through the `onmessage` audio
branch (no interruption, no restart in between), collecting a `SchedEntry`
for every chunk that was actually scheduled. -/
def runAudioChunks (s : AppState) : List (ℚ × AudioChunk) → AppState × List SchedEntry
  | [] => (s, [])
  | (t, c) :: rest =>
    let step := scheduleAudio s t c
    let next := runAudioChunks step.1 rest
    match step.2 with
    | some w => (next.1, ⟨t, w, c.duration⟩ :: next.2)
    | none => next

/-- Scheduling soundness relative to an incoming watermark `w`: every entry
starts no earlier than its clock time and no earlier than the watermark,
which then advances past the entry. -/
def SchedOK : ℚ → List SchedEntry → Prop
  | _, [] => True
  | w, e :: es => e.clockTime ≤ e.startTime ∧ w ≤ e.startTime ∧ SchedOK (e.startTime + e.duration) es

theorem SchedOK_mono (w w' : ℚ) (l : List SchedEntry) (hw : w' ≤ w) (h : SchedOK w l) :
    SchedOK w' l := by
  cases l with
  | nil => trivial
  | cons e es => exact ⟨h.1, le_trans hw h.2.1, h.2.2⟩

theorem runAudioChunks_schedOK (chunks : List (ℚ × AudioChunk)) (s : AppState) :
    SchedOK s.nextStartTime (runAudioChunks s chunks).2 := by
  induction chunks generalizing s with
  | nil => trivial
  | cons p rest ih =>
    obtain ⟨t, c⟩ := p
    by_cases hc : c.decodeOk
    · have hstep : scheduleAudio s t c =
          ({ s with isSpeaking := true,
                    nextStartTime := max s.nextStartTime t + c.duration,
                    activeSources := c.sourceId :: s.activeSources },
            some (max s.nextStartTime t)) := by
        simp [scheduleAudio, hc]
      show SchedOK s.nextStartTime (runAudioChunks s ((t, c) :: rest)).2
      rw [runAudioChunks, hstep]
      dsimp only
      refine ⟨le_max_right _ _, le_max_left _ _, ?_⟩
      exact ih { s with isSpeaking := true,
                        nextStartTime := max s.nextStartTime t + c.duration,
                        activeSources := c.sourceId :: s.activeSources }
    · have hstep : scheduleAudio s t c =
          ({ s with isSpeaking := true, nextStartTime := max s.nextStartTime t },
            none) := by
        simp [scheduleAudio, hc]
      show SchedOK s.nextStartTime (runAudioChunks s ((t, c) :: rest)).2
      rw [runAudioChunks, hstep]
      dsimp only
      exact SchedOK_mono _ _ _ (le_max_left _ _)
        (ih { s with isSpeaking := true, nextStartTime := max s.nextStartTime t })

theorem SchedOK_spec (w : ℚ) (l : List SchedEntry) (h : SchedOK w l) :
    (∀ e ∈ l, e.clockTime ≤ e.startTime) ∧
      List.Chain' (fun a b => a.startTime + a.duration ≤ b.startTime) l := by
  induction l generalizing w with
  | nil => exact ⟨by simp, List.chain'_nil⟩
  | cons e es ih =>
    obtain ⟨h1, _, h3⟩ := h
    obtain ⟨ih1, ih2⟩ := ih _ h3
    refine ⟨?_, ?_⟩
    · intro x hx
      rcases List.mem_cons.mp hx with rfl | hx
      · exact h1
      · exact ih1 x hx
    · cases es with
      | nil => simp
      | cons e2 es2 => exact List.chain'_cons.mpr ⟨h3.2.1, ih2⟩

/-- A concrete session state with stale playback state (watermark 100,
two active sources), used by witnesses. -/
def sampleState : AppState :=
  { messages := [⟨Role.user, "hi"⟩], status := ConnectionStatus.CONNECTED,
    isSpeaking := true, isListening := true, inputText := "",
    nextStartTime := 100, activeSources := [1, 2], session := some ⟨0⟩,
    scriptProcessor := true, currentInputTranscription := "",
    currentOutputTranscription := "", sentTexts := [] }

/-- C1: for any sequence of inbound audio chunks processed with no
interruption and no session restart in between, every scheduled unit starts
no earlier than the output clock's time at the moment it was scheduled (the
watermark is clamped to `max(watermark, currentClockTime)` and the unit
starts exactly at the watermark), and each unit's scheduled start time is at
least the previous unit's start time plus the previous unit's duration (the
watermark advances by the unit's duration). -/
theorem C1_monotone_scheduling (s : AppState) (chunks : List (ℚ × AudioChunk)) :
    (∀ e ∈ (runAudioChunks s chunks).2, e.clockTime ≤ e.startTime) ∧
      List.Chain' (fun a b => a.startTime + a.duration ≤ b.startTime)
        (runAudioChunks s chunks).2 :=
  SchedOK_spec _ _ (runAudioChunks_schedOK chunks s)

/-- C4: after an interrupt (`stopAllAudio`, triggered by the `interrupted`
flag), the active playback set is empty, the very next chunk is scheduled to
start exactly at the output clock's current time (not a stale future
timestamp inherited from before the interruption), and every chunk scheduled
afterwards starts no earlier than the clock time at which it was scheduled. -/
theorem C4_interrupt_clears_state (s : AppState) (t d : ℚ) (sid : Nat)
    (chunks : List (ℚ × AudioChunk)) (ht : 0 ≤ t) :
    (stopAllAudio s).activeSources = [] ∧
      (scheduleAudio (stopAllAudio s) t ⟨d, true, sid⟩).2 = some t ∧
      ∀ e ∈ (runAudioChunks (stopAllAudio s) chunks).2, e.clockTime ≤ e.startTime := by
  refine ⟨rfl, ?_, (SchedOK_spec _ _ (runAudioChunks_schedOK chunks _)).1⟩
  simp [scheduleAudio, stopAllAudio, max_eq_right ht]

/-- Witness for `C4_interrupt_clears_state` at a concrete stale state,
clock time 2 and one subsequent chunk. -/
theorem C4_interrupt_clears_state_witness :
    (0 : ℚ) ≤ 2 ∧
      ((stopAllAudio sampleState).activeSources = [] ∧
        (scheduleAudio (stopAllAudio sampleState) 2 ⟨3, true, 7⟩).2 = some 2 ∧
        ∀ e ∈ (runAudioChunks (stopAllAudio sampleState) [(2, ⟨3, true, 7⟩)]).2,
          e.clockTime ≤ e.startTime) :=
  ⟨by norm_num,
    C4_interrupt_clears_state sampleState 2 3 7 [(2, ⟨3, true, 7⟩)] (by norm_num)⟩

/-- C5 counterexample: `stopAllAudio` resets the stored watermark to the
constant 0, not to the output clock's current time: flushing `sampleState`
(watermark 100) while the clock reads 5 leaves the watermark at 0 ≠ 5. -/
theorem C5_counterexample :
    (stopAllAudio sampleState).nextStartTime = 0 ∧ (0 : ℚ) ≠ 5 :=
  ⟨rfl, by norm_num⟩

/-- C5 (amended): on an interruption flush, `stopAllAudio` resets the stored
watermark `nextStartTimeRef.current` to 0, not to the clock's current time;
the clamp `max(watermark, currentClockTime)` at the next scheduling is what
keeps stale future timestamps from surviving. -/
theorem C5_watermark_reset_to_zero (s : AppState) :
    (stopAllAudio s).nextStartTime = 0 := rfl

/-! ### Transcript aggregation and turn flush (C6) -/

/-- Concatenation of transcript fragments in arrival order. -/
def joinFrags (frags : List String) : String := frags.foldl (· ++ ·) ""

/-- An inbound event carrying only an output transcription fragment. -/
def outFragMsg (f : String) : LiveServerMessage := ⟨some f, none, false, none, false⟩

/-- An inbound event carrying only the turn-complete signal. -/
def turnCompleteMsg : LiveServerMessage := ⟨none, none, true, none, false⟩

/-- Fragment events followed by a turn-complete signal, each with the clock
time at which it is handled (the clock does not matter on these paths). -/
def turnSequence (frags : List String) (t : ℚ) : List (LiveServerMessage × ℚ) :=
  (frags.map fun f => (outFragMsg f, 0)) ++ [(turnCompleteMsg, t)]

theorem onmessage_outFrag (s : AppState) (f : String) (t : ℚ) :
    onmessage s (outFragMsg f) t =
      { s with currentOutputTranscription := s.currentOutputTranscription ++ f } := rfl

theorem runMessages_append (s : AppState) (l1 l2 : List (LiveServerMessage × ℚ)) :
    runMessages s (l1 ++ l2) = runMessages (runMessages s l1) l2 := by
  induction l1 generalizing s with
  | nil => rfl
  | cons p rest ih =>
    obtain ⟨m, t⟩ := p
    rw [List.cons_append, runMessages, runMessages, ih]

theorem runFrags_acc (frags : List String) (s : AppState) :
    runMessages s (frags.map fun f => (outFragMsg f, 0)) =
      { s with currentOutputTranscription :=
          frags.foldl (· ++ ·) s.currentOutputTranscription } := by
  induction frags generalizing s with
  | nil => rfl
  | cons f rest ih =>
    simp only [List.map_cons, List.foldl_cons]
    rw [runMessages, onmessage_outFrag]
    exact ih _

theorem onmessage_turnComplete (s : AppState) (t : ℚ) :
    onmessage s turnCompleteMsg t =
      if s.currentOutputTranscription ≠ "" then
        { s with messages := s.messages ++ [⟨Role.assistant, s.currentOutputTranscription⟩],
                 currentInputTranscription := "", currentOutputTranscription := "" }
      else { s with currentInputTranscription := "", currentOutputTranscription := "" } := by
  by_cases hc : s.currentOutputTranscription = ""
  · simp [onmessage, applyTranscription, applyTurnComplete, applyAudio, applyInterrupted,
      turnCompleteMsg, hc]
  · simp [onmessage, applyTranscription, applyTurnComplete, applyAudio, applyInterrupted,
      turnCompleteMsg, hc]

/-- C6: when a turn-complete signal arrives after a sequence of outbound
transcript fragments accumulated from an empty accumulator, exactly one
assistant message whose text is the concatenation of the fragments in
arrival order is appended when that concatenation is non-empty, no message
is appended when it is empty, and both accumulators are cleared afterwards. -/
theorem C6_turn_flush (s : AppState) (frags : List String) (t : ℚ)
    (h : s.currentOutputTranscription = "") :
    (runMessages s (turnSequence frags t)).messages =
        (if joinFrags frags = "" then s.messages
         else s.messages ++ [⟨Role.assistant, joinFrags frags⟩]) ∧
      (runMessages s (turnSequence frags t)).currentOutputTranscription = "" ∧
      (runMessages s (turnSequence frags t)).currentInputTranscription = "" := by
  have hseq : runMessages s (turnSequence frags t) =
      onmessage { s with currentOutputTranscription := joinFrags frags } turnCompleteMsg t := by
    unfold turnSequence
    rw [runMessages_append, runFrags_acc, h]
    rfl
  rw [hseq, onmessage_turnComplete]
  dsimp only
  by_cases hj : joinFrags frags = ""
  · rw [if_neg (not_not_intro hj), if_pos hj]
    exact ⟨rfl, rfl, rfl⟩
  · rw [if_pos hj, if_neg hj]
    exact ⟨rfl, rfl, rfl⟩

/-- Witness for `C6_turn_flush`: fragments `["Hel", "lo"]` then
turn-complete, against a state whose output accumulator is empty. -/
theorem C6_turn_flush_witness :
    sampleState.currentOutputTranscription = "" ∧
      ((runMessages sampleState (turnSequence ["Hel", "lo"] 0)).messages =
          (if joinFrags ["Hel", "lo"] = "" then sampleState.messages
           else sampleState.messages ++ [⟨Role.assistant, joinFrags ["Hel", "lo"]⟩]) ∧
        (runMessages sampleState (turnSequence ["Hel", "lo"] 0)).currentOutputTranscription = "" ∧
        (runMessages sampleState (turnSequence ["Hel", "lo"] 0)).currentInputTranscription = "") :=
  ⟨rfl, C6_turn_flush sampleState ["Hel", "lo"] 0 rfl⟩

/-! ### Idempotent stop (C7) and sendText (C8) -/

/-- C7: calling `handleStopSession` twice in succession from any state
produces the same terminal state: status `DISCONNECTED`, session and
script-processor handles released, active playback set empty; the second
call is a plain state computation that raises nothing. -/
theorem C7_idempotent_stop (s : AppState) :
    handleStopSession (handleStopSession s) = handleStopSession s ∧
      (handleStopSession s).status = ConnectionStatus.DISCONNECTED ∧
      (handleStopSession s).session = none ∧
      (handleStopSession s).scriptProcessor = false ∧
      (handleStopSession s).activeSources = [] :=
  ⟨rfl, rfl, rfl, rfl, rfl⟩

/-- C8: `handleSendText` is a no-op whenever the status is not `CONNECTED`,
or the trimmed input is empty, or no session handle is held; in a connected
state with a session and non-blank input it appends exactly one user message
with the trimmed text, forwards the trimmed text to the transport, and
clears the input; if the transport send throws, no message is appended and
the state is unchanged. -/
theorem C8_sendText (s : AppState) :
    (∀ ok, (s.status ≠ ConnectionStatus.CONNECTED ∨ s.inputText.trim = "" ∨
        s.session = none) → handleSendText s ok = s) ∧
    (s.status = ConnectionStatus.CONNECTED → s.session ≠ none → s.inputText.trim ≠ "" →
      (handleSendText s true).messages = s.messages ++ [⟨Role.user, s.inputText.trim⟩] ∧
        (handleSendText s true).sentTexts = s.sentTexts ++ [s.inputText.trim] ∧
        (handleSendText s true).inputText = "" ∧
        handleSendText s false = s) := by
  constructor
  · intro ok hcond
    unfold handleSendText
    rw [if_pos (by tauto)]
  · intro h1 h2 h3
    have hcond : ¬(s.inputText.trim = "" ∨ s.session = none ∨
        s.status ≠ ConnectionStatus.CONNECTED) := by
      push_neg
      exact ⟨h3, h2, h1⟩
    unfold handleSendText
    rw [if_neg hcond]
    refine ⟨rfl, rfl, rfl, ?_⟩
    rw [if_neg hcond]
    rfl

/-- A state with pending (untrimmed) input in a connected session. -/
def typingState : AppState := { sampleState with inputText := " hello " }

/-- A disconnected state with pending input. -/
def idleState : AppState :=
  { sampleState with status := ConnectionStatus.DISCONNECTED, inputText := "hello" }

/-- Witness for `C8_sendText`: the no-op branch at `idleState` and the
successful send at `typingState`. -/
theorem C8_sendText_witness :
    (idleState.status ≠ ConnectionStatus.CONNECTED ∨ idleState.inputText.trim = "" ∨
        idleState.session = none) ∧
      handleSendText idleState true = idleState ∧
      (typingState.status = ConnectionStatus.CONNECTED ∧ typingState.session ≠ none ∧
        typingState.inputText.trim ≠ "") ∧
      ((handleSendText typingState true).messages =
          typingState.messages ++ [⟨Role.user, typingState.inputText.trim⟩] ∧
        (handleSendText typingState true).sentTexts =
          typingState.sentTexts ++ [typingState.inputText.trim] ∧
        (handleSendText typingState true).inputText = "" ∧
        handleSendText typingState false = typingState) := by
  have htrim : typingState.inputText.trim ≠ "" := by
    simp +decide [typingState, sampleState, String.trim, Substring.trim, Substring.trimLeft,
      Substring.trimRight, Substring.takeWhileAux, Substring.takeRightWhileAux]
  exact ⟨Or.inl (by decide), (C8_sendText idleState).1 true (Or.inl (by decide)),
    ⟨rfl, by decide, htrim⟩,
    (C8_sendText typingState).2 rfl (by decide) htrim⟩

/-! ### Capture loop resilience (C9) -/

/-- A captured microphone frame together with whether the transport send of
its encoded chunk succeeds. -/
structure CaptureFrame where
  samples : List ℚ
  sendOk : Bool

/-- The capture loop (`scriptProcessor.onaudioprocess`, `src/App.tsx` lines
215–231): each callback encodes its frame and fires the send through
`sessionPromise.then(s => s.sendRealtimeInput(...)).catch(() => {})`.  A
rejected send is consumed by the rejection handler `() => {}`, which appends
nothing to the console log, and the loop goes on to the next frame.
Returns the chunks that reached the transport and the log entries the loop
produced. -/
def runCapture : List CaptureFrame → List (List Nat) × List String
  | [] => ([], [])
  | f :: rest =>
    let next := runCapture rest
    if f.sendOk then (onaudioprocessEncode f.samples :: next.1, next.2)
    else (next.1, next.2)

/-- C9 counterexample: a failed send of the first frame produces no log
entry at all (the rejection handler is the empty function `() => {}`), so
the failure is swallowed silently rather than logged; the second frame is
still processed and sent. -/
theorem C9_counterexample :
    (runCapture [⟨[0], false⟩, ⟨[0], true⟩]).2 = [] ∧
      (runCapture [⟨[0], false⟩, ⟨[0], true⟩]).1 = [onaudioprocessEncode [0]] :=
  ⟨rfl, rfl⟩

/-- C9 (amended): a failure of the transport send of a captured frame is
caught and silently swallowed (the handler `() => {}` logs nothing), and the
capture loop continues: every later frame whose send succeeds is still
encoded and delivered, so a single failed send neither crashes the pipeline
nor terminates the session. -/
theorem C9_capture_survives (frames : List CaptureFrame) :
    (runCapture frames).2 = [] ∧
      (runCapture frames).1 =
        (frames.filter fun f => f.sendOk).map fun f => onaudioprocessEncode f.samples := by
  induction frames with
  | nil => exact ⟨rfl, rfl⟩
  | cons f rest ih =>
    by_cases hf : f.sendOk <;>
      simp [runCapture, List.filter_cons, hf, ih.1, ih.2]

/-! ### Only assistant messages from the transport (C10) -/

theorem applyTranscription_messages (s : AppState) (m : LiveServerMessage) :
    (applyTranscription s m).messages = s.messages := by
  unfold applyTranscription
  cases m.outputTranscription with
  | some f => rfl
  | none =>
    cases m.inputTranscription with
    | some f => rfl
    | none => rfl

theorem applyTurnComplete_messages (s : AppState) (m : LiveServerMessage) :
    (applyTurnComplete s m).messages = s.messages ∨
      (applyTurnComplete s m).messages =
        s.messages ++ [⟨Role.assistant, s.currentOutputTranscription⟩] := by
  unfold applyTurnComplete
  by_cases ht : m.turnComplete = true
  · by_cases hc : s.currentOutputTranscription ≠ ""
    · right
      simp [ht, hc]
    · left
      simp [ht, hc]
  · left
    simp [ht]

theorem applyAudio_messages (s : AppState) (m : LiveServerMessage) (t : ℚ) :
    (applyAudio s m t).messages = s.messages := by
  unfold applyAudio
  cases m.audio with
  | some c =>
    by_cases hc : c.decodeOk <;> simp [scheduleAudio, hc]
  | none => rfl

theorem applyInterrupted_messages (s : AppState) (m : LiveServerMessage) :
    (applyInterrupted s m).messages = s.messages := by
  unfold applyInterrupted
  by_cases hi : m.interrupted = true <;> simp [hi, stopAllAudio]

theorem onmessage_messages (s : AppState) (m : LiveServerMessage) (t : ℚ) :
    (onmessage s m t).messages = s.messages ∨
      ∃ txt, (onmessage s m t).messages = s.messages ++ [⟨Role.assistant, txt⟩] := by
  unfold onmessage
  rw [applyInterrupted_messages, applyAudio_messages]
  rcases applyTurnComplete_messages (applyTranscription s m) m with h | h
  · left
    rw [h, applyTranscription_messages]
  · right
    exact ⟨(applyTranscription s m).currentOutputTranscription,
      by rw [h, applyTranscription_messages]⟩

/-- C10: the `onmessage` handler never appends a user message: over any
sequence of inbound transport events, the conversation log grows only by
messages of role `assistant` (inbound transcription fragments are
accumulated but never flushed into a message); of the modeled operations,
the playback and teardown handlers leave the log untouched, so the only
operation that appends a user message is `handleSendText`. -/
theorem C10_no_user_from_onmessage (s : AppState) (ms : List (LiveServerMessage × ℚ)) :
    (∃ l, (runMessages s ms).messages = s.messages ++ l ∧
        ∀ x ∈ l, x.role = Role.assistant) ∧
      ∀ s' : AppState, (stopAllAudio s').messages = s'.messages ∧
        (handleStopSession s').messages = s'.messages ∧
        ∀ sid, (onended s' sid).messages = s'.messages := by
  constructor
  · induction ms generalizing s with
    | nil => exact ⟨[], by simp [runMessages], by simp⟩
    | cons p rest ih =>
      obtain ⟨m, t⟩ := p
      obtain ⟨l, hl, hroles⟩ := ih (onmessage s m t)
      rcases onmessage_messages s m t with h | ⟨txt, h⟩
      · exact ⟨l, by rw [runMessages, hl, h], hroles⟩
      · refine ⟨⟨Role.assistant, txt⟩ :: l, ?_, ?_⟩
        · rw [runMessages, hl, h, List.append_assoc]
          rfl
        · intro x hx
          rcases List.mem_cons.mp hx with rfl | hx
          · rfl
          · exact hroles x hx
  · intro s'
    refine ⟨rfl, rfl, ?_⟩
    intro sid
    unfold onended
    by_cases he : ((s'.activeSources.erase sid).isEmpty : Bool) = true <;> simp [he]
